import Mathlib

/-!
Shallow embedding of the MCP action dispatcher of
`src/src/mastra/tools/mcpTool.ts` (the `execute` function of `mcpTool`),
together with theorems checking the natural-language specification's claims
against it.

Modelling conventions:
* JavaScript strings are Lean `String`s (`length` counts characters, which
  matches UTF-16 units for the inputs considered here).
* The flat tool map returned by `mcp.getTools()` is a `List (String × ToolVal)`
  in iteration order; JavaScript objects have unique keys, which theorems
  assume explicitly (`Nodup`) where it matters.
* `JSON.parse` is an external builtin: the client state carries an arbitrary
  `parseJson : String → Option Json`; `none` models a parse exception.
* A thrown `Error` is `Except.error` of an `McpError` value tagging the throw
  site with its payload; `McpError.finalMessage` rebuilds the exact message
  string the caller observes after the branch-level and top-level `catch`
  blocks have wrapped it.
* The second component of `mcpExecute`'s result records whether the resolved
  tool's `execute` function was actually invoked.
-/

/-- A JSON value, as produced by `JSON.parse` and consumed by
`JSON.stringify`. Numbers are modelled as integers (no claim involves
fractional numbers) and string escaping is elided. -/
inductive Json where
  | null
  | bool (b : Bool)
  | num (n : Int)
  | str (s : String)
  | arr (elems : List Json)
  | obj (fields : List (String × Json))

/-- JavaScript truthiness of a JSON value. -/
def Json.truthy : Json → Bool
  | .null => false
  | .bool b => b
  | .num n => n != 0
  | .str s => s != ""
  | .arr _ => true
  | .obj _ => true

/-- `ind` spaces, for pretty printing. -/
def pad (ind : Nat) : String :=
  String.mk (List.replicate ind ' ')

mutual

/-- Models `JSON.stringify(x, null, 2)` at nesting indentation `ind`
(string escaping elided). -/
def Json.stringifyAt (ind : Nat) : Json → String
  | .null => "null"
  | .bool b => if b then "true" else "false"
  | .num n => toString n
  | .str s => "\"" ++ s ++ "\""
  | .arr [] => "[]"
  | .arr (x :: xs) =>
      "[\n" ++ Json.stringifyItems (ind + 2) (x :: xs) ++ "\n" ++ pad ind ++ "]"
  | .obj [] => "\x7b\x7d"
  | .obj (kv :: kvs) =>
      "\x7b\n" ++ Json.stringifyFields (ind + 2) (kv :: kvs) ++ "\n" ++ pad ind ++ "\x7d"

/-- Array elements of `JSON.stringify(x, null, 2)`, one per line. -/
def Json.stringifyItems (ind : Nat) : List Json → String
  | [] => ""
  | [x] => pad ind ++ Json.stringifyAt ind x
  | x :: y :: xs =>
      pad ind ++ Json.stringifyAt ind x ++ ",\n" ++ Json.stringifyItems ind (y :: xs)

/-- Object fields of `JSON.stringify(x, null, 2)`, one per line. -/
def Json.stringifyFields (ind : Nat) : List (String × Json) → String
  | [] => ""
  | [kv] => pad ind ++ "\"" ++ kv.fst ++ "\": " ++ Json.stringifyAt ind kv.snd
  | kv :: kv2 :: kvs =>
      pad ind ++ "\"" ++ kv.fst ++ "\": " ++ Json.stringifyAt ind kv.snd ++ ",\n" ++
        Json.stringifyFields ind (kv2 :: kvs)

end

/-- Models `JSON.stringify(x, null, 2)` as used on line 269 of the source. -/
def Json.stringify (j : Json) : String :=
  Json.stringifyAt 0 j

/-- Truthiness of an optional JavaScript string (`undefined` and the empty
string are falsy). -/
def optTruthy : Option String → Bool
  | none => false
  | some s => s != ""

/-- JavaScript `a || b` for an optional string `a`. -/
def jsOrStr (a : Option String) (b : String) : String :=
  match a with
  | none => b
  | some s => if s == "" then b else s

/-- JavaScript `a || b` for an optional number `a` (`undefined` and `0` are
falsy). -/
def jsOrInt (a : Option Int) (b : Int) : Int :=
  match a with
  | none => b
  | some n => if n == 0 then b else n

/-- JavaScript `s.substring(0, n)`: a negative bound is clamped to `0`, a
bound past the end returns the whole string. -/
def jsTake (s : String) (n : Int) : String :=
  String.mk (s.data.take n.toNat)

/-- JavaScript `Array.prototype.join(sep)`. -/
def joinSep (sep : String) : List String → String
  | [] => ""
  | [s] => s
  | s :: t :: rest => s ++ sep ++ joinSep sep (t :: rest)

/-- `keys.join(', ')` as used when building the tool-not-found message. -/
def joinComma (l : List String) : String :=
  joinSep ", " l

/-- The observable properties of a value in the flat tool map that the
dispatcher reads: `id`, `description`, the two schemas and the `execute`
member (`some f` models a callable function property). -/
structure ToolObj where
  id : Option String
  description : Option String
  inputSchema : Option Json
  outputSchema : Option Json
  execute : Option (Json → Except String Json)

/-- A JavaScript value stored in the flat tool map. `prim` covers
`undefined` and primitive values (no properties); `obj` is a non-null value
with `typeof v === 'object'`; `func` is a value with
`typeof v === 'function'` (which may itself carry properties). -/
inductive ToolVal where
  | nullv
  | prim
  | obj (o : ToolObj)
  | func (o : ToolObj)

/-- `v?.id`. -/
def ToolVal.getId : ToolVal → Option String
  | .obj o => o.id
  | .func o => o.id
  | _ => none

/-- `v?.execute` when it is a function: `some f` iff
`typeof v?.execute === 'function'`. -/
def ToolVal.getExec : ToolVal → Option (Json → Except String Json)
  | .obj o => o.execute
  | .func o => o.execute
  | _ => none

/-- `typeof v === 'object' && v !== null && typeof v.execute === 'function'`:
the filter the `list_tools` branch applies to map entries (line 94). -/
def isExecutableObj : ToolVal → Bool
  | .obj o => o.execute.isSome
  | _ => false

/-- `typeof v?.execute === 'function'`: the filter used when enumerating
available tools in the not-found error message (line 141). -/
def hasCallableExec (v : ToolVal) : Bool :=
  v.getExec.isSome

/-- `v?.id === name` (strict equality with a string is false when `id` is
absent). -/
def toolIdMatch (v : ToolVal) (name : String) : Bool :=
  match v.getId with
  | some i => i == name
  | none => false

/-- The tool descriptor built by the `list_tools` branch (lines 95-102). -/
structure ToolDescriptor where
  fullKey : String
  id : String
  server : String
  description : String
  inputSchema : Option Json
  outputSchema : Option Json

/-- `fullKey.split('_')[0] || 'Rube'` (line 98). -/
def serverOfKey (fullKey : String) : String :=
  let h := (fullKey.splitOn "_").headD ""
  if h == "" then "Rube" else h

/-- The descriptor for one executable map entry (lines 95-102). -/
def mkToolDescriptor (fullKey : String) (o : ToolObj) : ToolDescriptor where
  fullKey := fullKey
  id := jsOrStr o.id fullKey
  server := serverOfKey fullKey
  description := jsOrStr o.description "No description available"
  inputSchema := o.inputSchema
  outputSchema := o.outputSchema

/-- The body of the `map` on line 92: the descriptor when the entry passes
the executable-object filter, `null` (here `none`) otherwise. -/
def toolEntryDescriptor (fullKey : String) (v : ToolVal) : Option ToolDescriptor :=
  match v with
  | .obj o => if o.execute.isSome then some (mkToolDescriptor fullKey o) else none
  | _ => none

/-- `Object.entries(toolMap).map(...).filter(Boolean)` (lines 92-105). -/
def listToolsData (m : List (String × ToolVal)) : List ToolDescriptor :=
  (m.map (fun e => toolEntryDescriptor e.fst e.snd)).filterMap id

/-- The `find` over `Object.entries(toolMap)` on lines 135-137:
`key === tool_name || tool?.id === tool_name`. -/
def findEntry (m : List (String × ToolVal)) (name : String) :
    Option (String × ToolVal) :=
  m.find? (fun e => e.fst == name || toolIdMatch e.snd name)

/-- `Object.keys(toolMap).filter(k => typeof toolMap[k]?.execute === 'function')`
(line 141); `toolMap[k]` is first-occurrence lookup. -/
def execKeys (m : List (String × ToolVal)) : List String :=
  (m.map Prod.fst).filter (fun k =>
    match m.lookup k with
    | some v => hasCallableExec v
    | none => false)

/-- A resource descriptor as returned by `mcp.getResources()` for one
server. -/
structure ResourceInfo where
  uri : String
  name : String
  description : Option String
  mimeType : Option String

/-- The flattened resource descriptor built by `list_resources`
(lines 192-200). -/
structure ResourceDescriptor where
  server : String
  uri : String
  name : String
  description : String
  mimeType : Option String

/-- One element of a `result.contents` array in a resource read result. -/
structure ContentItem where
  text : Option String
  blob : Option String

/-- The `contents` property of a read result: either an array of parts or a
truthy non-array value. A falsy or absent `contents` is `none` at the use
site. -/
inductive ContVal where
  | arr (items : List ContentItem)
  | nonArr

/-- The shape of the value returned by `mcp.resources.read`: a raw string,
or an object with optional `contents`, `text` and `data` properties. -/
inductive ReadResult where
  | str (s : String)
  | obj (contents : Option ContVal) (text : Option String) (data : Option Json)

/-- The content-accumulation loop over `result.contents` (lines 254-263):
concatenate truthy `text` parts; at the first part with no truthy `text` but
a truthy `blob`, return that blob alone and flag binary. -/
def extractParts : List ContentItem → String → String × Bool
  | [], acc => (acc, false)
  | it :: rest, acc =>
    if optTruthy it.text then extractParts rest (acc ++ it.text.getD "")
    else if optTruthy it.blob then (it.blob.getD "", true)
    else extractParts rest acc

/-- Content extraction from a read result (lines 249-270): a truthy
`contents` array first, then a raw string result, then a truthy `text`
property, then a truthy `data` property (stringified as pretty JSON when not
a string); otherwise the empty string. -/
def extractContent : ReadResult → String × Bool
  | .str s => (s, false)
  | .obj contents text dat =>
    match contents with
    | some (.arr items) => extractParts items ""
    | _ =>
      if optTruthy text then (text.getD "", false)
      else
        match dat with
        | some d =>
          if d.truthy then
            match d with
            | .str s => (s, false)
            | _ => (Json.stringify d, false)
          else ("", false)
        | none => ("", false)

/-- The server scan of the `get_resource` branch (lines 230-237): first
server, in iteration order, whose resource list contains the requested URI;
within a server, `find` returns the first matching resource. -/
def findResourceServer (rs : List (String × List ResourceInfo)) (uri : String) :
    Option (String × ResourceInfo) :=
  match rs with
  | [] => none
  | (server, resList) :: rest =>
    match resList.find? (fun r => r.uri == uri) with
    | some r => some (server, r)
    | none => findResourceServer rest uri

/-- One argument descriptor of a prompt. -/
structure PromptArg where
  name : String
  required : Option Bool

/-- A prompt descriptor as returned by `prompts.list()` for one server. -/
structure PromptInfo where
  name : String
  description : Option String
  arguments : Option (List PromptArg)

/-- The flattened prompt descriptor built by `list_prompts`
(lines 324-331). -/
structure PromptDescriptor where
  server : String
  name : String
  description : String
  arguments : List PromptArg

/-- The per-server value in the `prompts.list()` result: an array of prompt
descriptors, or any non-array value (skipped by the `Array.isArray`
checks). -/
inductive ServerPrompts where
  | arr (l : List PromptInfo)
  | nonArr

/-- `Array.isArray(serverPrompts) ? ... : []`: the prompt array of one
server, or the empty list for a non-array value. -/
def serverPromptsArray : ServerPrompts → List PromptInfo
  | .arr l => l
  | .nonArr => []

/-- The prompt scan of `get_prompt` (lines 379-389): first server, in
iteration order, whose (array-valued) prompt list contains the requested
name. -/
def findPrompt (ps : List (String × ServerPrompts)) (name : String) :
    Option (String × PromptInfo) :=
  match ps with
  | [] => none
  | (server, sp) :: rest =>
    match sp with
    | .arr l =>
      match l.find? (fun p => p.name == name) with
      | some p => some (server, p)
      | none => findPrompt rest name
    | .nonArr => findPrompt rest name

/-- The prompts capability of the MCP client object: absent namespace, or a
namespace whose `list` member is callable (`some` result of calling it) or
not, and whose `get` member is callable or not. -/
inductive PromptsCap where
  | absent
  | present (listResult : Option (Except String (List (String × ServerPrompts))))
      (getCallable : Bool)

/-- `!mcp.prompts || typeof mcp.prompts.list !== 'function'` (line 314),
negated. -/
def PromptsCap.listCallable : PromptsCap → Bool
  | .absent => false
  | .present listResult _ => listResult.isSome

/-- `!mcp.prompts || typeof mcp.prompts.get !== 'function'` (line 359),
negated. -/
def PromptsCap.getIsCallable : PromptsCap → Bool
  | .absent => false
  | .present _ g => g

/-- Calling `mcp.prompts.list()`: the recorded result when `list` is
callable, otherwise the TypeError JavaScript raises. -/
def PromptsCap.callList : PromptsCap → Except String (List (String × ServerPrompts))
  | .present (some r) _ => r
  | _ => .error "mcpWithPrompts.prompts.list is not a function"

/-- The `data` payload of a result envelope (`data: any` in the output
schema); one constructor per shape the dispatcher produces. -/
inductive EnvData where
  | toolList (tools : List ToolDescriptor)
  | resourceList (resources : List ResourceDescriptor)
  | promptList (prompts : List PromptDescriptor)
  | execData (tool_name : String) (fullKey : String) (result : Json)
  | resourceContent (uri : String) (server : String) (name : String)
      (description : Option String) (mimeType : Option String)
      (content : String) (isBinary : Bool) (truncated : Bool) (size : Nat)
  | getPromptData (name : String) (server : String) (description : Option String)
      (arguments : List PromptArg) (providedArguments : Json)
      (note : String) (instructions : String)
  | getPromptFallbackData (name : String) (server : String)
      (description : Option String) (arguments : List PromptArg) (note : String)

/-- The uniform success envelope `{action, data, message}`. -/
structure Envelope where
  action : String
  data : EnvData
  message : String

/-- A thrown error, tagged by throw site with its payload. -/
inductive McpError where
  | missingToolName
  | toolFetchFailed (msg : String)
  | toolNotFound (name : String) (availableKeys : List String)
  | toolNotExecutable (fullKey : String)
  | invalidArguments (text : String)
  | toolExecutionFailed (msg : String)
  | missingResourceUri
  | resourceFetchFailed (msg : String)
  | resourceNotFound (uri : String)
  | resourceReadFailed (msg : String)
  | missingPromptName
  | getPromptFailed (innerMsg : String)
  | unknownAction (action : String)

/-- The message of the error the caller finally observes, after the
branch-level wrap (`Failed to execute MCP tool: `, `Failed to get MCP
resource: `, `Failed to get MCP prompt: `) where the throw site sits inside
the branch's `try`, and the top-level wrap `MCP operation failed: `
(line 455). -/
def McpError.finalMessage : McpError → String
  | .missingToolName =>
      "MCP operation failed: Tool name is required for execute_tool action"
  | .toolFetchFailed msg =>
      "MCP operation failed: Failed to execute MCP tool: " ++ msg
  | .toolNotFound name keys =>
      "MCP operation failed: Failed to execute MCP tool: Tool '" ++ name ++
        "' not found. Available tools: " ++ joinComma keys
  | .toolNotExecutable fullKey =>
      "MCP operation failed: Failed to execute MCP tool: Tool '" ++ fullKey ++
        "' is not executable (missing execute function)"
  | .invalidArguments text =>
      "MCP operation failed: Failed to execute MCP tool: Invalid JSON format for tool_arguments: "
        ++ text
  | .toolExecutionFailed msg =>
      "MCP operation failed: Failed to execute MCP tool: " ++ msg
  | .missingResourceUri =>
      "MCP operation failed: Resource URI is required for get_resource action"
  | .resourceFetchFailed msg =>
      "MCP operation failed: Failed to get MCP resource: " ++ msg
  | .resourceNotFound uri =>
      "MCP operation failed: Failed to get MCP resource: Resource '" ++ uri ++
        "' not found. Use list_resources to see available resources."
  | .resourceReadFailed msg =>
      "MCP operation failed: Failed to get MCP resource: " ++ msg
  | .missingPromptName =>
      "MCP operation failed: Prompt name is required for get_prompt action"
  | .getPromptFailed innerMsg =>
      "MCP operation failed: Failed to get MCP prompt: " ++ innerMsg
  | .unknownAction action =>
      "MCP operation failed: Unknown MCP action: " ++ action

/-- The remote-client state one dispatcher call observes: results of
`mcp.getTools()`, `mcp.getResources()`, `mcp.resources.read(server, uri)`,
the prompts capability, and the external `JSON.parse` builtin (`none`
models a parse exception). -/
structure MCPState where
  tools : Except String (List (String × ToolVal))
  resources : Except String (List (String × List ResourceInfo))
  readResource : String → String → Except String ReadResult
  prompts : PromptsCap
  parseJson : String → Option Json

/-- The dispatcher's input record (the tool's `context`). -/
structure McpInput where
  action : String
  server_name : Option String := none
  tool_name : Option String := none
  tool_arguments : Option String := none
  resource_uri : Option String := none
  prompt_name : Option String := none
  prompt_arguments : Option String := none
  max_bytes : Option Int := none
  as_text : Option Bool := none

/-- Argument parsing shared by `execute_tool` (lines 153-160) and
`get_prompt` (lines 364-371): falsy input yields the empty object, a parse
failure reports the offending text. -/
def parseArgs (parse : String → Option Json) (args : Option String) :
    Except String Json :=
  if optTruthy args then
    match parse (args.getD "") with
    | some j => .ok j
    | none => .error (args.getD "")
  else .ok (Json.obj [])

/-- The `list_tools` branch (lines 85-122). -/
def listToolsRun (st : MCPState) : Except McpError Envelope :=
  match st.tools with
  | .error _ =>
    .ok { action := "list_tools", data := .toolList [],
          message := "No MCP servers configured. Tools will be available once MCP servers are set up." }
  | .ok m =>
    let toolsList := listToolsData m
    .ok { action := "list_tools", data := .toolList toolsList,
          message := "Found " ++ toString toolsList.length ++ " available MCP tools" }

/-- The `execute_tool` branch (lines 124-184). The boolean records whether
the resolved tool's `execute` function was invoked. -/
def executeToolRun (st : MCPState) (tool_name tool_arguments : Option String) :
    Except McpError Envelope × Bool :=
  if !(optTruthy tool_name) then (.error .missingToolName, false)
  else
    let n := tool_name.getD ""
    match st.tools with
    | .error e => (.error (.toolFetchFailed e), false)
    | .ok m =>
      match findEntry m n with
      | none => (.error (.toolNotFound n (execKeys m)), false)
      | some (fullKey, foundTool) =>
        match foundTool.getExec with
        | none => (.error (.toolNotExecutable fullKey), false)
        | some f =>
          match parseArgs st.parseJson tool_arguments with
          | .error s => (.error (.invalidArguments s), false)
          | .ok args =>
            match f args with
            | .error e => (.error (.toolExecutionFailed e), true)
            | .ok result =>
              (.ok { action := "execute_tool",
                     data := .execData (jsOrStr foundTool.getId fullKey) fullKey result,
                     message := "Successfully executed tool '" ++
                       jsOrStr foundTool.getId fullKey ++ "'" }, true)

/-- The `list_resources` branch (lines 186-214). -/
def listResourcesRun (st : MCPState) : Except McpError Envelope :=
  match st.resources with
  | .error _ =>
    .ok { action := "list_resources", data := .resourceList [],
          message := "No MCP servers configured or no resources available." }
  | .ok rs =>
    let resourcesList := rs.flatMap (fun e => e.snd.map (fun r =>
      ({ server := e.fst, uri := r.uri, name := r.name,
         description := jsOrStr r.description "No description available",
         mimeType := r.mimeType } : ResourceDescriptor)))
    .ok { action := "list_resources", data := .resourceList resourcesList,
          message := "Found " ++ toString resourcesList.length ++
            " available MCP resources across " ++ toString rs.length ++ " servers" }

/-- The `get_resource` branch (lines 216-306). -/
def getResourceRun (st : MCPState) (resource_uri : Option String)
    (max_bytes : Option Int) : Except McpError Envelope :=
  if !(optTruthy resource_uri) then .error .missingResourceUri
  else
    let uri := resource_uri.getD ""
    match st.resources with
    | .error e => .error (.resourceFetchFailed e)
    | .ok rs =>
      match findResourceServer rs uri with
      | none => .error (.resourceNotFound uri)
      | some (server, info) =>
        match st.readResource server uri with
        | .error e => .error (.resourceReadFailed e)
        | .ok result =>
          let maxSize := jsOrInt max_bytes 100000
          let extracted := extractContent result
          let isBinary := extracted.snd
          let truncated := !isBinary && (extracted.fst.length : Int) > maxSize
          let content := if truncated then jsTake extracted.fst maxSize else extracted.fst
          .ok { action := "get_resource",
                data := .resourceContent uri server info.name info.description
                  info.mimeType content isBinary truncated content.length,
                message := "Successfully retrieved resource '" ++ info.name ++
                  "' from server '" ++ server ++ "'" ++
                  (if truncated then " (truncated)" else "") }

/-- The `list_prompts` branch (lines 308-348). -/
def listPromptsRun (st : MCPState) : Except McpError Envelope :=
  if !(st.prompts.listCallable) then
    .ok { action := "list_prompts", data := .promptList [],
          message := "Prompts are not supported by the current MCP server configuration." }
  else
    match st.prompts.callList with
    | .error _ =>
      .ok { action := "list_prompts", data := .promptList [],
            message := "No prompts available from MCP servers." }
    | .ok ps =>
      let promptsList := ps.flatMap (fun e =>
        (serverPromptsArray e.snd).map (fun p =>
          ({ server := e.fst, name := p.name,
             description := jsOrStr p.description "No description available",
             arguments := p.arguments.getD [] } : PromptDescriptor)))
      .ok { action := "list_prompts", data := .promptList promptsList,
            message := "Found " ++ toString promptsList.length ++ " available MCP prompts" }

/-- `JSON.stringify` of one prompt argument descriptor (compact, as in the
`instructions` template on line 408); an absent `required` field is
omitted. -/
def stringifyPromptArg (a : PromptArg) : String :=
  "\x7b\"name\":\"" ++ a.name ++ "\"" ++
    (match a.required with
     | some b => ",\"required\":" ++ (if b then "true" else "false")
     | none => "") ++ "\x7d"

/-- `JSON.stringify(promptInfo.arguments)` (line 408). -/
def stringifyPromptArgs (l : List PromptArg) : String :=
  "[" ++ joinSep "," (l.map stringifyPromptArg) ++ "]"

/-- JavaScript template-literal interpolation of a possibly-undefined
string. -/
def jsShowOpt (o : Option String) : String :=
  o.getD "undefined"

/-- The `instructions` string of the `get_prompt` payload (line 408). -/
def promptInstructions (p : PromptInfo) : String :=
  "To use this prompt: " ++ jsShowOpt p.description ++ ". " ++
    (match p.arguments with
     | some (a :: rest) => "Required arguments: " ++ stringifyPromptArgs (a :: rest)
     | _ => "No arguments required.")

/-- The inside of the `get_prompt` branch's `try` (lines 357-411); errors
carry the inner message the `catch` inspects. -/
def getPromptInner (st : MCPState) (name : String)
    (prompt_arguments : Option String) : Except String Envelope :=
  if !(st.prompts.getIsCallable) then
    .error "Prompts are not supported by the current MCP server configuration."
  else
    match parseArgs st.parseJson prompt_arguments with
    | .error s => .error ("Invalid JSON format for prompt_arguments: " ++ s)
    | .ok args =>
      match st.prompts.callList with
      | .error e => .error e
      | .ok ps =>
        match findPrompt ps name with
        | none =>
          .error ("Prompt '" ++ name ++ "' not found. Use list_prompts to see available prompts.")
        | some (server, p) =>
          .ok { action := "get_prompt",
                data := .getPromptData name server p.description (p.arguments.getD [])
                  args
                  "Direct prompt execution is currently limited. Use the prompt description and arguments to construct your request manually."
                  (promptInstructions p),
                message := "Retrieved prompt template '" ++ name ++
                  "' (execution via API currently limited)" }

/-- `msg.includes(needle)`. -/
def strContains (hay needle : String) : Bool :=
  decide (needle.data <:+: hay.data)

/-- The `get_prompt` branch (lines 350-447), including the fallback taken
when the inner error message contains `Server configuration not found`
(lines 416-442). -/
def getPromptRun (st : MCPState) (prompt_name prompt_arguments : Option String) :
    Except McpError Envelope :=
  if !(optTruthy prompt_name) then .error .missingPromptName
  else
    let name := prompt_name.getD ""
    match getPromptInner st name prompt_arguments with
    | .ok env => .ok env
    | .error msg =>
      if strContains msg "Server configuration not found" then
        match st.prompts.callList with
        | .error _ => .error (.getPromptFailed msg)
        | .ok ps =>
          match findPrompt ps name with
          | some (server, p) =>
            .ok { action := "get_prompt",
                  data := .getPromptFallbackData name server p.description
                    (p.arguments.getD [])
                    "The MCP client library has a known limitation with the prompts.get API. Use list_prompts to see available prompts and their descriptions.",
                  message := "Prompt template '" ++ name ++
                    "' found but direct execution is not available due to API limitations" }
          | none => .error (.getPromptFailed msg)
      else .error (.getPromptFailed msg)

/-- The six-way action switch of `mcpTool.execute` (lines 84-451). The
boolean records whether a resolved tool's `execute` function was invoked. -/
def mcpExecute (st : MCPState) (inp : McpInput) : Except McpError Envelope × Bool :=
  match inp.action with
  | "list_tools" => (listToolsRun st, false)
  | "execute_tool" => executeToolRun st inp.tool_name inp.tool_arguments
  | "list_resources" => (listResourcesRun st, false)
  | "get_resource" => (getResourceRun st inp.resource_uri inp.max_bytes, false)
  | "list_prompts" => (listPromptsRun st, false)
  | "get_prompt" => (getPromptRun st inp.prompt_name inp.prompt_arguments, false)
  | a => (.error (.unknownAction a), false)

/-! ## Helper definitions for stating claims -/

/-- The `fullKey` field of a successful `execute_tool` envelope. -/
def execFullKey : Except McpError Envelope → Option String
  | .ok { data := .execData _ fk _, .. } => some fk
  | _ => none

/-- The `truncated` field of a successful `get_resource` envelope. -/
def resTruncated : Except McpError Envelope → Option Bool
  | .ok { data := .resourceContent _ _ _ _ _ _ _ tr _, .. } => some tr
  | _ => none

/-- The `content` field of a successful `get_resource` envelope. -/
def resContent : Except McpError Envelope → Option String
  | .ok { data := .resourceContent _ _ _ _ _ c _ _ _, .. } => some c
  | _ => none

/-- The `size` field of a successful `get_resource` envelope. -/
def resSize : Except McpError Envelope → Option Nat
  | .ok { data := .resourceContent _ _ _ _ _ _ _ _ sz, .. } => some sz
  | _ => none

/-- Whether an outcome is the tool-not-found error. -/
def isToolNotFoundErr : Except McpError Envelope → Bool
  | .error (.toolNotFound _ _) => true
  | _ => false

/-- The input record of an `execute_tool` request. -/
def execInput (tool_name : String) (tool_arguments : Option String) : McpInput :=
  { action := "execute_tool", tool_name := some tool_name,
    tool_arguments := tool_arguments }

/-- The input record of a `get_resource` request. -/
def getResourceInput (resource_uri : String) (max_bytes : Option Int) : McpInput :=
  { action := "get_resource", resource_uri := some resource_uri,
    max_bytes := max_bytes }

/-- `tool?.id || fullKey` projected through `toolObjOf`, the observable
object behind an `obj` or `func` value (a dummy object otherwise). -/
def toolObjOf : ToolVal → ToolObj
  | .obj o => o
  | .func o => o
  | _ => { id := none, description := none, inputSchema := none,
           outputSchema := none, execute := none }

/-- A content part presenting as binary: no truthy `text`, a truthy
`blob`. -/
def isBinaryPart (it : ContentItem) : Bool :=
  !(optTruthy it.text) && optTruthy it.blob

/-- The concatenation, in order, of the truthy `text` fields of a list of
content parts. -/
def concatTexts : List ContentItem → String
  | [] => ""
  | it :: rest => (if optTruthy it.text then it.text.getD "" else "") ++ concatTexts rest

/-! ## Shared lemmas -/

theorem strAppend_assoc (a b c : String) : a ++ b ++ c = a ++ (b ++ c) := by
  apply String.ext
  simp [String.data_append, List.append_assoc]

theorem strAppend_empty (a : String) : a ++ "" = a := by
  apply String.ext
  simp [String.data_append]

theorem strEmpty_append (a : String) : "" ++ a = a := by
  apply String.ext
  simp [String.data_append]

/-- Every element of a list is a substring of its comma-space join. -/
theorem mem_infix_joinComma {k : String} {l : List String} (h : k ∈ l) :
    k.data <:+: (joinComma l).data := by
  unfold joinComma
  induction l with
  | nil => cases h
  | cons x t ih =>
    match t, h with
    | [], h =>
      simp only [List.mem_singleton] at h
      subst h
      exact List.infix_rfl
    | y :: t', h =>
      rcases List.mem_cons.mp h with rfl | hmem
      · show k.data <:+: (k ++ ", " ++ joinSep ", " (y :: t')).data
        rw [strAppend_assoc, String.data_append]
        exact ( List.prefix_append k.data _).isInfix
      · show k.data <:+: (x ++ ", " ++ joinSep ", " (y :: t')).data
        rw [String.data_append]
        exact List.IsInfix.trans (ih hmem) (( List.suffix_append _ _).isInfix)

/-- `find?` returns the first element satisfying the predicate. -/
theorem find?_first {α : Type} {p : α → Bool} (l1 : List α) (x : α) (l2 : List α)
    (h1 : ∀ y ∈ l1, ¬ p y) (hx : p x) : (l1 ++ x :: l2).find? p = some x := by
  induction l1 with
  | nil => simp [List.find?_cons, hx]
  | cons a t ih =>
    have ha : p a = false := by
      have := h1 a (List.mem_cons_self a t)
      simpa using this
    simp only [List.cons_append, List.find?_cons, ha]
    exact ih (fun y hy => h1 y (List.mem_cons_of_mem a hy))

/-- With no binary part, the accumulation loop concatenates the truthy
texts. -/
theorem extractParts_no_binary (items : List ContentItem) (acc : String)
    (h : ∀ it ∈ items, isBinaryPart it = false) :
    extractParts items acc = (acc ++ concatTexts items, false) := by
  induction items generalizing acc with
  | nil => simp [extractParts, concatTexts, strAppend_empty]
  | cons it rest ih =>
    have hrest : ∀ x ∈ rest, isBinaryPart x = false :=
      fun x hx => h x (List.mem_cons_of_mem it hx)
    by_cases htext : optTruthy it.text = true
    · rw [show extractParts (it :: rest) acc = extractParts rest (acc ++ it.text.getD "")
        from by simp [extractParts, htext]]
      rw [ih _ hrest]
      simp [concatTexts, htext, strAppend_assoc]
    · have hblob : optTruthy it.blob = false := by
        have := h it (List.mem_cons_self it rest)
        simp only [isBinaryPart, Bool.and_eq_false_iff, Bool.not_eq_false'] at this
        rcases this with h' | h'
        · exact absurd h' htext
        · exact h'
      have htext' : optTruthy it.text = false := Bool.eq_false_iff.mpr htext
      rw [show extractParts (it :: rest) acc = extractParts rest acc
        from by simp [extractParts, htext', hblob]]
      rw [ih _ hrest]
      simp [concatTexts, htext', strEmpty_append]

/-- The accumulation loop stops at the first binary part, discarding
accumulated text. -/
theorem extractParts_binary (pre : List ContentItem) (b : ContentItem)
    (post : List ContentItem) (acc : String)
    (hpre : ∀ it ∈ pre, isBinaryPart it = false) (hb : isBinaryPart b = true) :
    extractParts (pre ++ b :: post) acc = (b.blob.getD "", true) := by
  induction pre generalizing acc with
  | nil =>
    simp only [isBinaryPart, Bool.and_eq_true, Bool.not_eq_true'] at hb
    simp [extractParts, hb.1, hb.2]
  | cons it rest ih =>
    have hrest : ∀ x ∈ rest, isBinaryPart x = false :=
      fun x hx => hpre x (List.mem_cons_of_mem it hx)
    by_cases htext : optTruthy it.text = true
    · simp only [List.cons_append, extractParts, htext, if_pos rfl]
      exact ih _ hrest
    · have hblob : optTruthy it.blob = false := by
        have := hpre it (List.mem_cons_self it rest)
        simp only [isBinaryPart, Bool.and_eq_false_iff, Bool.not_eq_false'] at this
        rcases this with h' | h'
        · exact absurd h' htext
        · exact h'
      have htext' : optTruthy it.text = false := Bool.eq_false_iff.mpr htext
      simp only [List.cons_append, extractParts, htext', hblob, Bool.false_eq_true, if_false]
      exact ih _ hrest

/-- `listToolsData` on a cons, following the map-then-filter structure. -/
theorem listToolsData_cons (e : String × ToolVal) (t : List (String × ToolVal)) :
    listToolsData (e :: t) =
      match toolEntryDescriptor e.fst e.snd with
      | some d => d :: listToolsData t
      | none => listToolsData t := by
  simp only [listToolsData, List.map_cons, List.filterMap_cons]
  cases toolEntryDescriptor e.fst e.snd <;> rfl

/-- The `list_tools` output is, in order, one descriptor per entry passing
the executable-object filter. -/
theorem listToolsData_eq (m : List (String × ToolVal)) :
    listToolsData m =
      (m.filter (fun e => isExecutableObj e.snd)).map
        (fun e => mkToolDescriptor e.fst (toolObjOf e.snd)) := by
  induction m with
  | nil => rfl
  | cons e t ih =>
    rw [listToolsData_cons, List.filter_cons]
    cases hsnd : e.snd with
    | obj o =>
      cases ho : o.execute with
      | some f =>
        simp [toolEntryDescriptor, hsnd, ho, isExecutableObj, toolObjOf, ih]
      | none =>
        simp [toolEntryDescriptor, hsnd, ho, isExecutableObj, toolObjOf, ih]
    | nullv => simp [toolEntryDescriptor, hsnd, isExecutableObj, ih]
    | prim => simp [toolEntryDescriptor, hsnd, isExecutableObj, ih]
    | func o => simp [toolEntryDescriptor, hsnd, isExecutableObj, ih]

/-- C2: for every flat tool mapping, ListTools returns exactly one
descriptor per entry whose value is a non-null object with a callable
`execute` member, in order, and no descriptor for any other entry; the
output length equals the count of such executable entries. -/
theorem C2_listTools_executable_filter (st : MCPState)
    (m : List (String × ToolVal)) (h : st.tools = .ok m) :
    mcpExecute st { action := "list_tools" } =
      (.ok { action := "list_tools", data := .toolList (listToolsData m),
             message := "Found " ++ toString (listToolsData m).length ++
               " available MCP tools" }, false)
    ∧ listToolsData m =
        (m.filter (fun e => isExecutableObj e.snd)).map
          (fun e => mkToolDescriptor e.fst (toolObjOf e.snd))
    ∧ (listToolsData m).length = m.countP (fun e => isExecutableObj e.snd) := by
  refine ⟨?_, listToolsData_eq m, ?_⟩
  · simp [mcpExecute, listToolsRun, h]
  · rw [listToolsData_eq m, List.length_map, List.countP_eq_length_filter]

/-- An executable tool object for the C2 witness. -/
def c2ToolA : ToolObj where
  id := some "tool-a"
  description := some "does a"
  inputSchema := none
  outputSchema := none
  execute := some (fun _ => .ok (Json.str "a-result"))

/-- A non-executable tool object for the C2 witness. -/
def c2ToolB : ToolObj where
  id := none
  description := none
  inputSchema := none
  outputSchema := none
  execute := some (fun _ => .ok Json.null)

/-- The tool map for the C2 witness: one executable object, one object with
no callable `execute`, one primitive, one executable function value (not an
object). -/
def c2Map : List (String × ToolVal) :=
  [("srv_a", .obj c2ToolA),
   ("srv_b", .obj { c2ToolB with execute := none }),
   ("srv_c", .prim),
   ("srv_d", .func c2ToolB)]

/-- The client state for the C2 witness. -/
def c2State : MCPState :=
  { tools := .ok c2Map, resources := .error "no servers",
    readResource := fun _ _ => .error "no servers", prompts := .absent,
    parseJson := fun _ => none }

/-- C2 witness: the theorem applied at a concrete mapping with four entries,
exactly one of which is an executable object. -/
theorem C2_witness :
    mcpExecute c2State { action := "list_tools" } =
      (.ok { action := "list_tools", data := .toolList (listToolsData c2Map),
             message := "Found " ++ toString (listToolsData c2Map).length ++
               " available MCP tools" }, false)
    ∧ listToolsData c2Map =
        (c2Map.filter (fun e => isExecutableObj e.snd)).map
          (fun e => mkToolDescriptor e.fst (toolObjOf e.snd))
    ∧ (listToolsData c2Map).length = c2Map.countP (fun e => isExecutableObj e.snd)
    ∧ (listToolsData c2Map).length = 1 := by
  have h := C2_listTools_executable_filter c2State c2Map rfl
  exact ⟨h.1, h.2.1, h.2.2, by decide⟩

/-- An executable tool object whose `id` is `beta`, returning `ran-alpha`. -/
def c1ToolAlpha : ToolObj where
  id := some "beta"
  description := none
  inputSchema := none
  outputSchema := none
  execute := some (fun _ => .ok (Json.str "ran-alpha"))

/-- An executable tool object whose `id` is `beta`, returning `ran-beta`. -/
def c1ToolBeta : ToolObj where
  id := some "beta"
  description := none
  inputSchema := none
  outputSchema := none
  execute := some (fun _ => .ok (Json.str "ran-beta"))

/-- A map where the entry keyed `alpha` has id `beta`, and a later entry is
keyed exactly `beta`. -/
def c1Map : List (String × ToolVal) :=
  [("alpha", .obj c1ToolAlpha), ("beta", .obj c1ToolBeta)]

/-- The client state for the C1 counterexample. -/
def c1State : MCPState :=
  { tools := .ok c1Map, resources := .error "no servers",
    readResource := fun _ _ => .error "no servers", prompts := .absent,
    parseJson := fun _ => none }

/-- C1 counterexample: the mapping contains an entry whose key is exactly
`beta`, yet ExecuteTool with `tool_name = beta` selects the earlier entry
`alpha` (matched through its `id` field), so an exact-key match is not
preferred over an earlier id match: the `find` on lines 135-137 is a single
pass with a combined predicate, not a key pass followed by an id pass. -/
theorem C1_counterexample :
    (c1Map.map Prod.fst).contains "beta" = true
    ∧ execFullKey (mcpExecute c1State (execInput "beta" none)).fst = some "alpha"
    ∧ ("alpha" == "beta") = false := by
  refine ⟨by decide, by rfl, by decide⟩

/-- C1 (amended): ExecuteTool resolves `tool_name` in a single pass over the
mapping in iteration order, selecting the first entry whose key equals
`tool_name` or whose `id` field equals `tool_name`; hence an earlier entry
matching only by `id` is preferred over a later entry whose key matches
exactly. The second part propagates the selected entry to the dispatcher's
observable result. -/
theorem C1_amended_single_pass_resolution (pre post : List (String × ToolVal))
    (k : String) (v : ToolVal) (n : String)
    (hpre : ∀ e ∈ pre, e.fst ≠ n ∧ toolIdMatch e.snd n = false)
    (hmatch : k = n ∨ toolIdMatch v n = true) :
    findEntry (pre ++ (k, v) :: post) n = some (k, v)
    ∧ (∀ st f r, st.tools = .ok (pre ++ (k, v) :: post) → n ≠ "" →
        v.getExec = some f → f (Json.obj []) = .ok r →
        mcpExecute st (execInput n none) =
          (.ok { action := "execute_tool",
                 data := .execData (jsOrStr v.getId k) k r,
                 message := "Successfully executed tool '" ++ jsOrStr v.getId k ++ "'" },
           true)) := by
  have hfind : findEntry (pre ++ (k, v) :: post) n = some (k, v) := by
    apply find?_first
    · intro y hy
      obtain ⟨h1, h2⟩ := hpre y hy
      simp [h1, h2]
    · rcases hmatch with rfl | h
      · simp
      · simp [h]
  refine ⟨hfind, ?_⟩
  intro st f r htools hn hexec hrun
  have hnt : optTruthy (some n) = true := by simp [optTruthy, hn]
  simp [mcpExecute, execInput, executeToolRun, hnt, htools, hfind, hexec,
    parseArgs, optTruthy, hrun, hn]

/-- The map for the C1 witness: a first entry matching neither key nor id, a
second entry matching `beta` by id only, a third entry keyed exactly
`beta`. -/
def c1WitMap : List (String × ToolVal) :=
  [("zed", .prim), ("alpha", .obj c1ToolAlpha), ("beta", .obj c1ToolBeta)]

/-- The client state for the C1 witness. -/
def c1WitState : MCPState :=
  { tools := .ok c1WitMap, resources := .error "no servers",
    readResource := fun _ _ => .error "no servers", prompts := .absent,
    parseJson := fun _ => none }

/-- C1 witness: the amended resolution theorem applied at a concrete map
with a non-matching first entry, an id-matching second entry and an
exact-key third entry. -/
theorem C1_witness :
    findEntry c1WitMap "beta" = some ("alpha", .obj c1ToolAlpha)
    ∧ mcpExecute c1WitState (execInput "beta" none) =
        (.ok { action := "execute_tool",
               data := .execData "beta" "alpha" (Json.str "ran-alpha"),
               message := "Successfully executed tool 'beta'" }, true) := by
  have h := C1_amended_single_pass_resolution [("zed", .prim)]
    [("beta", .obj c1ToolBeta)] "alpha" (.obj c1ToolAlpha) "beta"
    (by decide) (by decide)
  exact ⟨h.1, h.2 c1WitState (fun _ => .ok (Json.str "ran-alpha"))
    (Json.str "ran-alpha") rfl (by decide) rfl rfl⟩

/-- Under unique keys, object-style lookup of a present entry finds its
value. -/
theorem lookup_eq_some_of_nodup {α β : Type} [BEq α] [LawfulBEq α]
    {m : List (α × β)} {k : α} {v : β}
    (hnd : (m.map Prod.fst).Nodup) (hmem : (k, v) ∈ m) : m.lookup k = some v := by
  induction m with
  | nil => cases hmem
  | cons e t ih =>
    obtain ⟨a, b⟩ := e
    rcases List.mem_cons.mp hmem with he | hmem'
    · rw [show k = a from congrArg Prod.fst he, show v = b from congrArg Prod.snd he]
      simp [List.lookup]
    · have hk : (k == a) = false := by
        apply beq_eq_false_iff_ne.mpr
        intro hka
        subst hka
        have hmk : k ∈ t.map Prod.fst := List.mem_map_of_mem Prod.fst hmem'
        exact (List.nodup_cons.mp hnd).1 hmk
      rw [List.lookup]
      rw [hk]
      exact ih (List.nodup_cons.mp hnd).2 hmem'

/-- Every key of an entry with a callable `execute` appears in the
executable-keys enumeration of the not-found message. -/
theorem mem_execKeys {m : List (String × ToolVal)} {k : String} {v : ToolVal}
    (hnd : (m.map Prod.fst).Nodup) (hmem : (k, v) ∈ m)
    (hexec : hasCallableExec v = true) : k ∈ execKeys m := by
  unfold execKeys
  apply List.mem_filter.mpr
  refine ⟨List.mem_map_of_mem Prod.fst hmem, ?_⟩
  rw [lookup_eq_some_of_nodup hnd hmem]
  exact hexec

/-- C7: when `tool_name` matches no entry's key and no entry's id,
ExecuteTool fails with the tool-not-found error carrying the executable
keys, and the final error message contains every key of the mapping whose
value exposes a callable `execute` member. -/
theorem C7_toolNotFound_lists_executable_keys (st : MCPState)
    (m : List (String × ToolVal)) (n : String)
    (htools : st.tools = .ok m) (hn : n ≠ "")
    (hnd : (m.map Prod.fst).Nodup)
    (hmiss : ∀ e ∈ m, e.fst ≠ n ∧ toolIdMatch e.snd n = false) :
    mcpExecute st (execInput n none) =
      (.error (.toolNotFound n (execKeys m)), false)
    ∧ ∀ k v, (k, v) ∈ m → hasCallableExec v = true →
        k.data <:+: ((McpError.toolNotFound n (execKeys m)).finalMessage).data := by
  constructor
  · have hfind : findEntry m n = none := by
      apply List.find?_eq_none.mpr
      intro e he
      obtain ⟨h1, h2⟩ := hmiss e he
      simp [h1, h2]
    have hnt : optTruthy (some n) = true := by simp [optTruthy, hn]
    simp [mcpExecute, execInput, executeToolRun, hnt, htools, hfind]
  · intro k v hmem hexec
    have hk := mem_execKeys hnd hmem hexec
    have hinfix := mem_infix_joinComma hk
    show k.data <:+:
      ("MCP operation failed: Failed to execute MCP tool: Tool '" ++ n ++
        "' not found. Available tools: " ++ joinComma (execKeys m)).data
    rw [String.data_append]
    exact hinfix.trans (( List.suffix_append _ _).isInfix)

/-- The map for the C7 witness: one executable entry keyed `alpha` with id
`beta`, one primitive entry; the name `zzz` matches nothing. -/
def c7Map : List (String × ToolVal) :=
  [("alpha", .obj c1ToolAlpha), ("nox", .prim)]

/-- The client state for the C7 witness. -/
def c7State : MCPState :=
  { tools := .ok c7Map, resources := .error "no servers",
    readResource := fun _ _ => .error "no servers", prompts := .absent,
    parseJson := fun _ => none }

/-- C7 witness: the theorem applied at a concrete mapping and the unknown
name `zzz`; the executable key `alpha` is a substring of the final
message. -/
theorem C7_witness :
    mcpExecute c7State (execInput "zzz" none) =
      (.error (.toolNotFound "zzz" (execKeys c7Map)), false)
    ∧ ("alpha" : String).data <:+:
        ((McpError.toolNotFound "zzz" (execKeys c7Map)).finalMessage).data := by
  have h := C7_toolNotFound_lists_executable_keys c7State c7Map "zzz" rfl
    (by decide) (by decide) (by decide)
  exact ⟨h.1, h.2 "alpha" (.obj c1ToolAlpha) (List.mem_cons_self _ _) (by decide)⟩

/-- C9: every descriptor returned by ListTools, executed by its `id` with
empty arguments against the same mapping, never yields the tool-not-found
error: the originating entry always satisfies the resolution predicate, so
the single-pass `find` succeeds (possibly on another entry), and every
later failure mode is a different error. -/
theorem C9_roundtrip_never_toolNotFound (st : MCPState)
    (m : List (String × ToolVal)) (d : ToolDescriptor)
    (htools : st.tools = .ok m) (hd : d ∈ listToolsData m) :
    isToolNotFoundErr (mcpExecute st (execInput d.id none)).fst = false := by
  rw [listToolsData_eq] at hd
  obtain ⟨e, he, hdesc⟩ := List.mem_map.mp hd
  have hmem : e ∈ m := (List.mem_filter.mp he).1
  have hex : isExecutableObj e.snd = true := (List.mem_filter.mp he).2
  by_cases hid : d.id = ""
  · have hnt : optTruthy (some d.id) = false := by simp [optTruthy, hid]
    simp [mcpExecute, execInput, executeToolRun, hnt, isToolNotFoundErr]
  · have hnt : optTruthy (some d.id) = true := by simp [optTruthy, hid]
    have hpred : (e.fst == d.id || toolIdMatch e.snd d.id) = true := by
      obtain ⟨o, hsnd⟩ : ∃ o, e.snd = ToolVal.obj o := by
        cases hsnd : e.snd <;> simp [isExecutableObj, hsnd] at hex ⊢
      have hidval : d.id = jsOrStr o.id e.fst := by
        rw [← hdesc]
        simp [mkToolDescriptor, toolObjOf, hsnd]
      rcases ho : o.id with _ | s
      · apply Bool.or_eq_true_iff.mpr
        left
        rw [hidval]
        simp [jsOrStr, ho]
      · by_cases hse : s = ""
        · apply Bool.or_eq_true_iff.mpr
          left
          rw [hidval]
          simp [jsOrStr, ho, hse]
        · apply Bool.or_eq_true_iff.mpr
          right
          rw [hidval]
          simp [toolIdMatch, ToolVal.getId, hsnd, ho, jsOrStr, hse]
    have hsome : (findEntry m d.id).isSome = true := by
      apply List.find?_isSome.mpr
      exact ⟨e, hmem, hpred⟩
    obtain ⟨e', he'⟩ := Option.isSome_iff_exists.mp hsome
    obtain ⟨fk, tv⟩ := e'
    simp only [mcpExecute, execInput, executeToolRun, hnt, htools,
      Bool.not_true, Bool.false_eq_true, if_false]
    cases htv : tv.getExec with
    | none => simp [he', htv, isToolNotFoundErr]
    | some f =>
      cases hres : f (Json.obj []) with
      | error msg => simp [he', htv, hres, parseArgs, optTruthy, isToolNotFoundErr]
      | ok result => simp [he', htv, hres, parseArgs, optTruthy, isToolNotFoundErr]

/-- The map for the C9 witness. -/
def c9Map : List (String × ToolVal) :=
  [("srv_a", .obj c1ToolAlpha)]

/-- The client state for the C9 witness. -/
def c9State : MCPState :=
  { tools := .ok c9Map, resources := .error "no servers",
    readResource := fun _ _ => .error "no servers", prompts := .absent,
    parseJson := fun _ => none }

/-- C9 witness: the round-trip theorem applied to the concrete descriptor
ListTools returns for `c9Map` (its id is `beta`). -/
theorem C9_witness :
    isToolNotFoundErr
      (mcpExecute c9State (execInput (mkToolDescriptor "srv_a" c1ToolAlpha).id none)).fst
      = false := by
  exact C9_roundtrip_never_toolNotFound c9State c9Map
    (mkToolDescriptor "srv_a" c1ToolAlpha) rfl (List.mem_cons_self _ _)

/-- C6: when `tool_name` resolves to an executable tool but
`tool_arguments` is non-empty text the JSON parser rejects, ExecuteTool
fails with the invalid-arguments error (whose final message echoes the
offending text) and the resolved tool's `execute` function is never invoked
(the invocation flag is `false`); falsy (empty or absent) `tool_arguments`
parses to the empty object. -/
theorem C6_invalid_arguments_before_execution (st : MCPState)
    (m : List (String × ToolVal)) (n s k : String) (v : ToolVal)
    (f : Json → Except String Json)
    (htools : st.tools = .ok m) (hn : n ≠ "")
    (hfind : findEntry m n = some (k, v)) (hexec : v.getExec = some f)
    (hs : s ≠ "") (hparse : st.parseJson s = none) :
    mcpExecute st (execInput n (some s)) = (.error (.invalidArguments s), false)
    ∧ s.data <:+: ((McpError.invalidArguments s).finalMessage).data
    ∧ parseArgs st.parseJson none = .ok (Json.obj [])
    ∧ parseArgs st.parseJson (some "") = .ok (Json.obj []) := by
  refine ⟨?_, ?_, rfl, rfl⟩
  · have hnt : optTruthy (some n) = true := by simp [optTruthy, hn]
    have hst : optTruthy (some s) = true := by simp [optTruthy, hs]
    simp [mcpExecute, execInput, executeToolRun, hnt, htools, hfind, hexec,
      parseArgs, hst, hparse]
  · show s.data <:+:
      ("MCP operation failed: Failed to execute MCP tool: Invalid JSON format for tool_arguments: "
        ++ s).data
    rw [String.data_append]
    exact ( List.suffix_append _ _).isInfix

/-- The client state for the C6 witness: the single tool resolves, and the
parser rejects every input. -/
def c6State : MCPState :=
  { tools := .ok [("alpha", .obj c1ToolAlpha)], resources := .error "no servers",
    readResource := fun _ _ => .error "no servers", prompts := .absent,
    parseJson := fun _ => none }

/-- C6 witness: the theorem applied at the resolvable name `alpha` and the
unparseable argument text `not json`. -/
theorem C6_witness :
    mcpExecute c6State (execInput "alpha" (some "not json")) =
      (.error (.invalidArguments "not json"), false)
    ∧ ("not json" : String).data <:+:
        ((McpError.invalidArguments "not json").finalMessage).data
    ∧ parseArgs c6State.parseJson none = .ok (Json.obj [])
    ∧ parseArgs c6State.parseJson (some "") = .ok (Json.obj []) := by
  exact C6_invalid_arguments_before_execution c6State [("alpha", .obj c1ToolAlpha)]
    "alpha" "not json" "alpha" (.obj c1ToolAlpha)
    (fun _ => .ok (Json.str "ran-alpha")) rfl (by decide) rfl rfl (by decide) rfl

/-- When no server's list contains the URI, the scan finds nothing. -/
theorem findResourceServer_eq_none {rs : List (String × List ResourceInfo)}
    {uri : String} (h : ∀ e ∈ rs, ∀ r ∈ e.snd, r.uri ≠ uri) :
    findResourceServer rs uri = none := by
  induction rs with
  | nil => rfl
  | cons e rest ih =>
    obtain ⟨server, resList⟩ := e
    have hfind : resList.find? (fun r => r.uri == uri) = none := by
      apply List.find?_eq_none.mpr
      intro r hr
      simp [h (server, resList) (List.mem_cons_self _ _) r hr]
    rw [findResourceServer, hfind]
    exact ih (fun e' he' => h e' (List.mem_cons_of_mem _ he'))

/-- The scan returns the first matching resource of the first server, in
iteration order, that contains the URI. -/
theorem findResourceServer_first (pre : List (String × List ResourceInfo))
    (server : String) (l : List ResourceInfo)
    (post : List (String × List ResourceInfo))
    (l1 : List ResourceInfo) (r : ResourceInfo) (l2 : List ResourceInfo)
    (uri : String)
    (hpre : ∀ e ∈ pre, ∀ r' ∈ e.snd, r'.uri ≠ uri)
    (hl : l = l1 ++ r :: l2) (hl1 : ∀ r' ∈ l1, r'.uri ≠ uri) (hr : r.uri = uri) :
    findResourceServer (pre ++ (server, l) :: post) uri = some (server, r) := by
  induction pre with
  | nil =>
    have hfind : l.find? (fun r' => r'.uri == uri) = some r := by
      rw [hl]
      apply find?_first
      · intro y hy
        simp [hl1 y hy]
      · simp [hr]
    simp [findResourceServer, hfind]
  | cons e rest ih =>
    obtain ⟨s', rl'⟩ := e
    have hfind : rl'.find? (fun r' => r'.uri == uri) = none := by
      apply List.find?_eq_none.mpr
      intro r' hr'
      simp [hpre (s', rl') (List.mem_cons_self _ _) r' hr']
    rw [List.cons_append, findResourceServer, hfind]
    exact ih (fun e' he' => hpre e' (List.mem_cons_of_mem _ he'))

/-- C5: GetResource resolves by scanning servers in the iteration order of
the fetched mapping, taking the first (server, resource) pair whose `uri`
equals the request's URI — so a resource on a later server, absent from all
earlier servers, is still found — and when no server contains the URI the
call fails with the resource-not-found error. -/
theorem C5_resource_server_scan (st : MCPState)
    (rs : List (String × List ResourceInfo)) (uri : String) (mb : Option Int)
    (hres : st.resources = .ok rs) (huri : uri ≠ "") :
    ((∀ e ∈ rs, ∀ r ∈ e.snd, r.uri ≠ uri) →
      mcpExecute st (getResourceInput uri mb) =
        (.error (.resourceNotFound uri), false))
    ∧ (∀ pre server l post l1 r l2, rs = pre ++ (server, l) :: post →
        (∀ e ∈ pre, ∀ r' ∈ e.snd, r'.uri ≠ uri) →
        l = l1 ++ r :: l2 → (∀ r' ∈ l1, r'.uri ≠ uri) → r.uri = uri →
        findResourceServer rs uri = some (server, r)) := by
  constructor
  · intro hnone
    have hfind := findResourceServer_eq_none hnone
    have hut : optTruthy (some uri) = true := by simp [optTruthy, huri]
    simp [mcpExecute, getResourceInput, getResourceRun, hut, hres, hfind]
  · intro pre server l post l1 r l2 hrs hpre hl hl1 hr
    rw [hrs]
    exact findResourceServer_first pre server l post l1 r l2 uri hpre hl hl1 hr

/-- A resource on server B only, for the C5 witness. -/
def c5ResB : ResourceInfo :=
  { uri := "res://b", name := "B", description := some "doc b",
    mimeType := some "text/plain" }

/-- The per-server resource mapping for the C5 witness: server A has one
resource (not the requested one), server B has the requested one. -/
def c5Rs : List (String × List ResourceInfo) :=
  [("srvA", [{ uri := "res://a", name := "A", description := none, mimeType := none }]),
   ("srvB", [c5ResB])]

/-- The client state for the C5 witness. -/
def c5State : MCPState :=
  { tools := .error "no servers", resources := .ok c5Rs,
    readResource := fun _ _ => .ok (.str "content-b"), prompts := .absent,
    parseJson := fun _ => none }

/-- C5 witness: the theorem applied to a two-server mapping; the URI present
only on the second server resolves to that server, and an unknown URI fails
with the resource-not-found error. -/
theorem C5_witness :
    findResourceServer c5Rs "res://b" = some ("srvB", c5ResB)
    ∧ mcpExecute c5State (getResourceInput "res://zz" none) =
        (.error (.resourceNotFound "res://zz"), false) := by
  constructor
  · exact (C5_resource_server_scan c5State c5Rs "res://b" none rfl (by decide)).2
      [("srvA", [{ uri := "res://a", name := "A", description := none, mimeType := none }])]
      "srvB" [c5ResB] [] [] c5ResB [] rfl (by decide) rfl (by decide) (by decide)
  · exact (C5_resource_server_scan c5State c5Rs "res://zz" none rfl (by decide)).1
      (by decide)

/-- The resource for the C3 counterexample. -/
def c3Res : ResourceInfo :=
  { uri := "res://x", name := "doc", description := none, mimeType := none }

/-- The client state for the C3 counterexample: reading the resource yields
the 5-character text `hello`. -/
def c3State : MCPState :=
  { tools := .error "no servers", resources := .ok [("srv", [c3Res])],
    readResource := fun _ _ => .ok (.str "hello"), prompts := .absent,
    parseJson := fun _ => none }

/-- C3 counterexample: with `max_bytes` supplied as `0`, the claim's cap is
`0` and the 5-character text exceeds it, yet the returned content is the
whole text, `truncated` is `false` and `size` is `5` — because the code
computes the cap as `max_bytes || 100000` (line 251), so a supplied falsy
`0` is replaced by the default instead of being used. -/
theorem C3_counterexample :
    (("hello" : String).length : Int) > 0
    ∧ resTruncated (mcpExecute c3State (getResourceInput "res://x" (some 0))).fst
        = some false
    ∧ resContent (mcpExecute c3State (getResourceInput "res://x" (some 0))).fst
        = some "hello"
    ∧ resSize (mcpExecute c3State (getResourceInput "res://x" (some 0))).fst
        = some 5 := by
  refine ⟨by decide, by rfl, by rfl, by rfl⟩

/-- C3 (amended): for a GetResource request whose resolved content is
textual and longer than the cap — `max_bytes` when supplied *and positive*,
`100000` otherwise — the returned content is the prefix of length equal to
the cap, `truncated` is `true` and `size` equals the cap. -/
theorem C3_amended_truncation (st : MCPState)
    (rs : List (String × List ResourceInfo)) (uri server : String)
    (info : ResourceInfo) (result : ReadResult) (text : String)
    (mb : Option Int) (cap : Int)
    (hres : st.resources = .ok rs) (huri : uri ≠ "")
    (hfind : findResourceServer rs uri = some (server, info))
    (hread : st.readResource server uri = .ok result)
    (hex : extractContent result = (text, false))
    (hcap : (mb = none ∧ cap = 100000) ∨ (∃ k, mb = some k ∧ 0 < k ∧ cap = k))
    (hlong : (text.length : Int) > cap) :
    mcpExecute st (getResourceInput uri mb) =
      (.ok { action := "get_resource",
             data := .resourceContent uri server info.name info.description
               info.mimeType (jsTake text cap) false true (jsTake text cap).length,
             message := "Successfully retrieved resource '" ++ info.name ++
               "' from server '" ++ server ++ "'" ++ " (truncated)" }, false)
    ∧ ((jsTake text cap).length : Int) = cap := by
  have hcap0 : (0 : Int) < cap := by
    rcases hcap with ⟨_, hc⟩ | ⟨k, _, hk, hc⟩
    · rw [hc]
      norm_num
    · rw [hc]
      exact hk
  have hmax : jsOrInt mb 100000 = cap := by
    rcases hcap with ⟨hmb, hc⟩ | ⟨k, hmb, hk, hc⟩
    · rw [hmb, hc]
      rfl
    · rw [hmb, hc]
      have hne : (k == 0) = false := by
        simp only [beq_eq_false_iff_ne, ne_eq]
        omega
      simp [jsOrInt, hne]
  have hut : optTruthy (some uri) = true := by simp [optTruthy, huri]
  have hlen : (jsTake text cap).length = cap.toNat := by
    show (text.data.take cap.toNat).length = cap.toNat
    rw [List.length_take]
    have hdl : text.data.length = text.length := rfl
    omega
  constructor
  · simp [mcpExecute, getResourceInput, getResourceRun, hut, hres, hfind,
      hread, hex, hmax, hlong, hlen]
  · rw [hlen]
    omega

/-- The 100-character text for the C3 witness. -/
def c3LongText : String :=
  String.mk (List.replicate 100 'a')

/-- The client state for the C3 witness: reading the resource yields a
100-character text. -/
def c3WitState : MCPState :=
  { tools := .error "no servers", resources := .ok [("srv", [c3Res])],
    readResource := fun _ _ => .ok (.str c3LongText), prompts := .absent,
    parseJson := fun _ => none }

/-- C3 witness: the amended theorem applied with `max_bytes = 10` and a
100-character text: content of length 10, `truncated = true`,
`size = 10`. -/
theorem C3_witness :
    mcpExecute c3WitState (getResourceInput "res://x" (some 10)) =
      (.ok { action := "get_resource",
             data := .resourceContent "res://x" "srv" c3Res.name c3Res.description
               c3Res.mimeType (jsTake c3LongText 10) false true
               (jsTake c3LongText 10).length,
             message := "Successfully retrieved resource '" ++ c3Res.name ++
               "' from server '" ++ "srv" ++ "'" ++ " (truncated)" }, false)
    ∧ ((jsTake c3LongText 10).length : Int) = 10 := by
  exact C3_amended_truncation c3WitState [("srv", [c3Res])] "res://x" "srv"
    c3Res (.str c3LongText) c3LongText (some 10) 10 rfl (by decide) rfl rfl rfl
    (Or.inr ⟨10, rfl, by norm_num, rfl⟩) (by decide)

/-- C10: when `max_bytes` is supplied as `0` (a falsy number), the code's
`max_bytes || 100000` (line 251) applies the default cap of `100000`
instead of `0`: the request behaves exactly as if `max_bytes` were absent,
and textual content of length at most `100000` is returned whole and
untruncated rather than being cut to the empty string. -/
theorem C10_falsy_max_bytes_default (st : MCPState)
    (rs : List (String × List ResourceInfo)) (uri server : String)
    (info : ResourceInfo) (result : ReadResult) (text : String)
    (hres : st.resources = .ok rs) (huri : uri ≠ "")
    (hfind : findResourceServer rs uri = some (server, info))
    (hread : st.readResource server uri = .ok result)
    (hex : extractContent result = (text, false))
    (hlen : (text.length : Int) ≤ 100000) :
    mcpExecute st (getResourceInput uri (some 0)) =
      mcpExecute st (getResourceInput uri none)
    ∧ mcpExecute st (getResourceInput uri (some 0)) =
        (.ok { action := "get_resource",
               data := .resourceContent uri server info.name info.description
                 info.mimeType text false false text.length,
               message := "Successfully retrieved resource '" ++ info.name ++
                 "' from server '" ++ server ++ "'" }, false) := by
  have hut : optTruthy (some uri) = true := by simp [optTruthy, huri]
  have hnotlong : ¬ ((100000 : Int) < (text.length : Int)) := by omega
  have hone : mcpExecute st (getResourceInput uri (some 0)) =
      (.ok { action := "get_resource",
             data := .resourceContent uri server info.name info.description
               info.mimeType text false false text.length,
             message := "Successfully retrieved resource '" ++ info.name ++
               "' from server '" ++ server ++ "'" }, false) := by
    have : jsOrInt (some 0) 100000 = 100000 := rfl
    simp [mcpExecute, getResourceInput, getResourceRun, hut, hres, hfind,
      hread, hex, this, hnotlong, strAppend_empty]
  refine ⟨?_, hone⟩
  rw [hone]
  have : jsOrInt none 100000 = 100000 := rfl
  simp [mcpExecute, getResourceInput, getResourceRun, hut, hres, hfind,
    hread, hex, this, hnotlong, strAppend_empty]

/-- The client state for the C10 witness: reading the resource yields the
5-character text `hello`. -/
def c10State : MCPState :=
  { tools := .error "no servers", resources := .ok [("srv", [c3Res])],
    readResource := fun _ _ => .ok (.str "hello"), prompts := .absent,
    parseJson := fun _ => none }

/-- C10 witness: the theorem applied at `max_bytes = 0` on a 5-character
text: the result equals the no-`max_bytes` result and is returned whole. -/
theorem C10_witness :
    mcpExecute c10State (getResourceInput "res://x" (some 0)) =
      mcpExecute c10State (getResourceInput "res://x" none)
    ∧ mcpExecute c10State (getResourceInput "res://x" (some 0)) =
        (.ok { action := "get_resource",
               data := .resourceContent "res://x" "srv" c3Res.name c3Res.description
                 c3Res.mimeType "hello" false false ("hello" : String).length,
               message := "Successfully retrieved resource '" ++ c3Res.name ++
                 "' from server '" ++ "srv" ++ "'" }, false) := by
  exact C10_falsy_max_bytes_default c10State [("srv", [c3Res])] "res://x" "srv"
    c3Res (.str "hello") "hello" rfl (by decide) rfl rfl rfl (by decide)

/-- C4: content extraction precedence. For a `contents` array, truthy text
parts are concatenated in order, but the first part that instead carries a
truthy `blob` makes the whole result binary with only that blob (any
accumulated text is discarded). When `contents` is not a truthy array: a
raw string result, then a truthy `text` property, then a truthy `data`
property (pretty-JSON-stringified unless it is a string) are used in that
order. Binary content is never truncated, whatever `max_bytes` is. -/
theorem C4_content_extraction_precedence :
    (∀ items t d, (∀ it ∈ items, isBinaryPart it = false) →
        extractContent (.obj (some (.arr items)) t d) = (concatTexts items, false))
    ∧ (∀ pre b post t d,
        (∀ it ∈ pre, isBinaryPart it = false) → isBinaryPart b = true →
        extractContent (.obj (some (.arr (pre ++ b :: post))) t d) =
          (b.blob.getD "", true))
    ∧ (∀ s, extractContent (.str s) = (s, false))
    ∧ (∀ contents s d, s ≠ "" → (contents = none ∨ contents = some .nonArr) →
        extractContent (.obj contents (some s) d) = (s, false))
    ∧ (∀ contents t j, optTruthy t = false →
        (contents = none ∨ contents = some .nonArr) → j.truthy = true →
        extractContent (.obj contents t (some j)) =
          ((match j with | .str s => s | _ => Json.stringify j), false))
    ∧ (∀ st rs uri server info result blob mb,
        st.resources = .ok rs → uri ≠ "" →
        findResourceServer rs uri = some (server, info) →
        st.readResource server uri = .ok result →
        extractContent result = (blob, true) →
        mcpExecute st (getResourceInput uri mb) =
          (.ok { action := "get_resource",
                 data := .resourceContent uri server info.name info.description
                   info.mimeType blob true false blob.length,
                 message := "Successfully retrieved resource '" ++ info.name ++
                   "' from server '" ++ server ++ "'" }, false)) := by
  refine ⟨?_, ?_, ?_, ?_, ?_, ?_⟩
  · intro items t d h
    have hparts := extractParts_no_binary items "" h
    simp [extractContent, hparts, strEmpty_append]
  · intro pre b post t d hpre hb
    have hparts := extractParts_binary pre b post "" hpre hb
    simp [extractContent, hparts]
  · intro s
    rfl
  · rintro contents s d hs (rfl | rfl) <;> simp [extractContent, optTruthy, hs]
  · rintro contents t j ht (rfl | rfl) hj <;> cases j <;>
      simp_all [extractContent, Json.truthy]
  · intro st rs uri server info result blob mb hres huri hfind hread hex
    have hut : optTruthy (some uri) = true := by simp [optTruthy, huri]
    simp [mcpExecute, getResourceInput, getResourceRun, hut, hres, hfind,
      hread, hex, strAppend_empty]

/-- A text part for the C4 witness. -/
def c4TextItem : ContentItem := { text := some "AB", blob := none }

/-- A binary part for the C4 witness. -/
def c4BlobItem : ContentItem := { text := none, blob := some "QUJD" }

/-- C4 witness: two text parts concatenate; a binary part in the middle
makes the result that blob alone, discarding the text before it. -/
theorem C4_witness :
    extractContent (.obj (some (.arr [c4TextItem, c4TextItem])) none none)
      = ("ABAB", false)
    ∧ extractContent
        (.obj (some (.arr [c4TextItem, c4BlobItem, c4TextItem])) none none)
      = ("QUJD", true) := by
  have h := C4_content_extraction_precedence
  constructor
  · exact h.1 [c4TextItem, c4TextItem] none none (by decide)
  · exact h.2.1 [c4TextItem] c4BlobItem [c4TextItem] none none
      (by decide) (by decide)

/-- C8: when the client has no prompts capability (no `prompts` namespace
or no callable `list`), ListPrompts returns a success envelope whose data
is the empty list with an explanatory message; it never fails. -/
theorem C8_listPrompts_no_capability_degrades (st : MCPState)
    (h : st.prompts = .absent ∨ ∃ g, st.prompts = .present none g) :
    mcpExecute st { action := "list_prompts" } =
      (.ok { action := "list_prompts", data := .promptList [],
             message := "Prompts are not supported by the current MCP server configuration." },
       false) := by
  rcases h with h | ⟨g, h⟩ <;>
    simp [mcpExecute, listPromptsRun, h, PromptsCap.listCallable]

/-- The client state for the C8 witness: no prompts namespace at all. -/
def c8State : MCPState :=
  { tools := .error "no servers", resources := .error "no servers",
    readResource := fun _ _ => .error "no servers", prompts := .absent,
    parseJson := fun _ => none }

/-- C8 witness: the theorem applied to a client with an absent prompts
namespace. -/
theorem C8_witness :
    mcpExecute c8State { action := "list_prompts" } =
      (.ok { action := "list_prompts", data := .promptList [],
             message := "Prompts are not supported by the current MCP server configuration." },
       false) :=
  C8_listPrompts_no_capability_degrades c8State (Or.inl rfl)
